import Mathlib

/-!
Verification of the homelab automation scripts:
`scripts/auto_patch_backup.py` (backup patcher),
`scripts/add_adlists.py` (Pi-hole adlist provisioner) and
`scripts/inspect_backup_image.py` (backup image inspector).

The Python code is shallowly embedded: pure string/path manipulation becomes
Lean functions on `String` (via `List Char`, so every definition evaluates in
the kernel), the SQLite database becomes an explicit record of row lists, and
subprocess side effects become explicit effect traces.
-/

/-! ## Python string primitives

The scripts use `str.lstrip`, `str.replace`, `str.startswith`, `str.lower`,
substring membership (`"x" in s`) and `"sep".join`.  These are modeled on
character lists so that they compute by kernel reduction.
-/

/-- Python `s.lstrip("/")` for a one-character strip set: drop every leading
occurrence of the character `c`. -/
def pyLStrip (s : String) (c : Char) : String :=
  ⟨s.toList.dropWhile (fun a => a = c)⟩

/-- Python `s.split(sep)` on character lists (single-character separator):
the separator is not kept, empty fields are kept. -/
def splitChar (sep : Char) : List Char → List (List Char)
  | [] => [[]]
  | c :: rest =>
    let r := splitChar sep rest
    if c = sep then [] :: r
    else
      match r with
      | [] => [[c]]
      | g :: gs => (c :: g) :: gs

/-- Python `s.split(sep)` for a single-character separator. -/
def pySplit (s : String) (sep : Char) : List String :=
  (splitChar sep s.toList).map (fun l => ⟨l⟩)

/-- Python `sep.join(parts)`. -/
def joinSep (sep : String) : List String → String
  | [] => ""
  | [x] => x
  | x :: xs => x ++ sep ++ joinSep sep xs

/-- Python `s.startswith(pre)`. -/
def strStartsWith (s pre : String) : Bool :=
  pre.toList.isPrefixOf s.toList

/-- Python `s.lower()` (the names handled by the scripts are ASCII). -/
def strToLower (s : String) : String :=
  ⟨s.toList.map Char.toLower⟩

/-- Substring test on character lists: Python `needle in hay`. -/
def subChars (needle : List Char) : List Char → Bool
  | [] => needle.isPrefixOf []
  | c :: t => needle.isPrefixOf (c :: t) || subChars needle t

/-- Python substring membership `needle in hay` for strings. -/
def strContains (hay needle : String) : Bool :=
  subChars needle.toList hay.toList

/-! ## Archive naming

`auto_patch_backup.py`:

    def safe_archive_name_from_src(src: str) -> str:
        # /a/b/c  ->  a__b__c.tar.gz
        return src.lstrip("/").replace("/", "__") + ".tar.gz"

`s.replace("/", "__")` is modeled as split-on-`/` followed by a `"__"`-join,
which agrees with Python `str.replace` for a one-character pattern. -/

def safe_archive_name_from_src (src : String) : String :=
  joinSep "__" (pySplit (pyLStrip src '/') '/') ++ ".tar.gz"

/-- `inspect_backup_image.py`, `main.bind_name` (verbatim duplicate of
`safe_archive_name_from_src`):

    def bind_name(src: str) -> str:
        return src.lstrip("/").replace("/", "__") + ".tar.gz"
-/
def bind_name (src : String) : String :=
  joinSep "__" (pySplit (pyLStrip src '/') '/') ++ ".tar.gz"

/-- The allow-listed host paths exercised by the spec's tests: the fixed
system config prefixes of `DEFAULT_PREFIXES` plus the two example paths the
spec names (`/etc/pihole`, `/home/u/data`). -/
def allowListedTestPaths : List String :=
  ["/etc/pihole", "/etc/dnsmasq.d", "/etc/caddy", "/etc/caddy_config", "/home/u/data"]

/-! ## Mount-prefix filtering (`auto_patch_backup.should_include_path`) -/

/-- Python `str(pathlib.Path(s))` for POSIX paths: the root is `//` exactly
when the string has exactly two leading slashes (otherwise a single `/`, or
empty for relative paths), the components are the slash-separated fields with
empty fields and `.` fields removed, and the empty result renders as `.`. -/
def normPath (s : String) : String :=
  let root :=
    if strStartsWith s "//" && !(strStartsWith s "///") then "//"
    else if strStartsWith s "/" then "/" else ""
  let parts := (pySplit s '/').filter (fun c => c != "" && c != ".")
  if root = "" && parts = [] then "." else root ++ joinSep "/" parts

/-- `auto_patch_backup.should_include_path`: include `src` only if it is
inside one of the allowed prefixes.  Each side is normalized with
`pathlib.Path` (the `try`/`except` in the source is dead for string input),
and `os.sep` is `/` on the target host:

    if src_norm == p_norm or src_norm.startswith(p_norm + os.sep):
        return True
-/
def should_include_path (src : String) (prefixes : List String) : Bool :=
  prefixes.any fun p =>
    normPath src == normPath p || strStartsWith (normPath src) (normPath p ++ "/")

/-! ## Missing-set computation (`auto_patch_backup.main`, lines 236-240) -/

/-- The missing-archive loop of `auto_patch_backup.main`:

    missing = []
    for cname, src, dst in filtered:
        arc = safe_archive_name_from_src(src)
        if arc not in existing:
            missing.append((cname, src, dst, arc))

`existing` is the set of archive names already present in the snapshot's
`bind-mounts/` directory, modeled as a list with set membership. -/
def computeMissing (filtered : List (String × String × String)) (existing : List String) :
    List (String × String × String × String) :=
  match filtered with
  | [] => []
  | (c, s, d) :: rest =>
    let arc := safe_archive_name_from_src s
    (if arc ∈ existing then [] else [(c, s, d, arc)]) ++ computeMissing rest existing

/-! ## Container auto-detection (`add_adlists.detect_container_name`) -/

/-- The fatal message of `detect_container_name` (raised as `SystemExit`). -/
def detectErrMsg : String :=
  "Couldn't detect a Pi-hole container automatically. Pass --container <name>."

/-- `add_adlists.detect_container_name`: `ps` is the line list produced by
`docker ps --format` (`none` models the listing command raising, which the
bare `except` turns into the same fatal exit):

    out = run([...docker ps...]).stdout.strip().splitlines()
    if "pihole" in out:
        return "pihole"
    for n in out:
        if "pihole" in n.lower():
            return n
    ...
    raise SystemExit("Couldn't detect a Pi-hole container automatically. ...")
-/
def detect_container_name (ps : Option (List String)) : Except String String :=
  match ps with
  | none => .error detectErrMsg
  | some out =>
    if "pihole" ∈ out then .ok "pihole"
    else
      match out.find? (fun n => strContains (strToLower n) "pihole") with
      | some n => .ok n
      | none => .error detectErrMsg

/-! ## Patcher effects (`auto_patch_backup.ensure_bind_archives` and the
rebuild step of `main`)

External actions are reified as an effect trace: directory creation, the
`*.tar.gz` listing, stdout/stderr reports, the elevated `tar`/`chown`
invocations, and the rebuild script run. -/

/-- One external action of the backup patcher. -/
inductive Eff where
  | mkdirP (dir : String)
  | listArchives (dir : String)
  | printDryRun (src : String) (archivePath : String)
  | printArchiving (src : String) (cname : String) (archivePath : String)
  | sudoTar (archivePath : String) (rel : String)
  | sudoChown (archivePath : String)
  | stderrTarFailed (src : String)
  | printRebuildBanner
  | runMakeScript
  | stderrMakeScriptMissing
  deriving DecidableEq, Repr

/-- The body of the `for cname, src, dst in bind_mounts` loop of
`ensure_bind_archives`, for one mount: effects emitted and names appended to
`created`.  `tarFails src = true` models the elevated archive command raising
`CalledProcessError` for that source path (the `try` block prints the error
and falls through without appending). -/
def processMount (bind_dir : String) (existing : List String) (dry_run : Bool)
    (tarFails : String → Bool) (m : String × String × String) :
    List Eff × List String :=
  let cname := m.1
  let src := m.2.1
  let arc := safe_archive_name_from_src src
  if arc ∈ existing then ([], [])
  else
    let archive_path := bind_dir ++ "/" ++ arc
    if dry_run then ([.printDryRun src archive_path], [arc])
    else
      let rel := pyLStrip src '/'
      if tarFails src then
        ([.printArchiving src cname archive_path, .sudoTar archive_path rel,
          .stderrTarFailed src], [])
      else
        ([.printArchiving src cname archive_path, .sudoTar archive_path rel,
          .sudoChown archive_path], [arc])

/-- The archiving loop: effects and `created` entries of all mounts in
order. -/
def ensureLoop (bind_dir : String) (existing : List String) (dry_run : Bool)
    (tarFails : String → Bool) : List (String × String × String) → List Eff × List String
  | [] => ([], [])
  | m :: rest =>
    let e := processMount bind_dir existing dry_run tarFails m
    let r := ensureLoop bind_dir existing dry_run tarFails rest
    (e.1 ++ r.1, e.2 ++ r.2)

/-- `auto_patch_backup.ensure_bind_archives`: the directory is created
(`bind_dir.mkdir(parents=True, exist_ok=True)`) and the existing archives
listed before the loop runs — in dry-run mode too.  `existing` is the
`list_archives(bind_dir)` result.  Returns the effect trace and the
`created` list. -/
def ensure_bind_archives (bind_mounts : List (String × String × String))
    (bind_dir : String) (dry_run : Bool) (existing : List String)
    (tarFails : String → Bool) : List Eff × List String :=
  let r := ensureLoop bind_dir existing dry_run tarFails bind_mounts
  (Eff.mkdirP bind_dir :: Eff.listArchives bind_dir :: r.1, r.2)

/-- The tail of `auto_patch_backup.main` (lines 260-267): when
`--rebuild-image` was passed, the rebuild script is run if present (its
absence only produces a note on stderr).  The source never consults
`args.dry_run` here; the `dry_run` argument is carried to make that explicit. -/
def rebuild_image_step (rebuild_image : Bool) (dry_run : Bool)
    (make_script_exists : Bool) : List Eff :=
  if rebuild_image then
    if make_script_exists then [.printRebuildBanner, .runMakeScript]
    else [.stderrMakeScriptMissing]
  else []

/-! ## Backup image resolution (`inspect_backup_image.py`)

Python compares strings by code points; `charsLe` is that order, used both in
the embedding of `sorted(...)` and to state "lexicographically greatest". -/

/-- Python string `<=`: code-point lexicographic order on character lists. -/
def charsLe : List Char → List Char → Bool
  | [], _ => true
  | _ :: _, [] => false
  | a :: as, b :: bs =>
    if a.toNat < b.toNat then true
    else if b.toNat < a.toNat then false
    else charsLe as bs

/-- Python `a <= b` on strings. -/
def strLe (a b : String) : Bool :=
  charsLe a.toList b.toList

instance : DecidableRel (fun a b : String => strLe a b = true) :=
  fun a b => inferInstanceAs (Decidable (strLe a b = true))

/-- `inspect_backup_image.list_backup_images`: keep the locally available
images that start with the fixed prefix and sort ascending (Python `sorted`
over code-point order):

    out = run(["docker","images","--format","..."]).stdout.splitlines()
    return sorted([i for i in out if i.startswith(prefix)])

A `docker images` failure returns `[]`, the same as an empty line list. -/
def list_backup_images (lines : List String) : List String :=
  List.insertionSort (fun a b : String => strLe a b = true)
    (lines.filter (fun i => strStartsWith i "homelab-backup:"))

/-- `inspect_backup_image.autodetect_image`: the last element of the sorted
candidate list, `None` when there is none:

    imgs = list_backup_images()
    if not imgs: return None
    return imgs[-1]
-/
def autodetect_image (lines : List String) : Option String :=
  (list_backup_images lines).getLast?

/-- The guidance text written to stderr before `sys.exit(2)` in
`inspect_backup_image.main` when no image can be resolved. -/
def noImageGuidance : String :=
  "ERROR: No backup image found.\nHints:\n  - Build one:  ~/make-backup-image.sh\n  - Or list:    docker images | grep homelab-backup\n  - Or load:    docker load -i /path/to/homelab-backup-image.tar\n"

/-- The image-resolution head of `inspect_backup_image.main` (lines 51-67):
explicit `--image` wins, otherwise auto-detection fills in, and an
unresolved image is a fatal exit with status 2 and the guidance text:

    image = args.image
    if args.auto or not image:
        auto = autodetect_image()
        if args.auto: image = auto
        elif not image and auto: image = auto
    if not image: ...sys.exit(2)
-/
def resolve_image (argImage : Option String) (autoFlag : Bool) (lines : List String) :
    Except (Nat × String) String :=
  let image :=
    if autoFlag || argImage.isNone then
      let a := autodetect_image lines
      if autoFlag then a
      else if argImage.isNone && a.isSome then a
      else argImage
    else argImage
  match image with
  | some i => .ok i
  | none => .error (2, noImageGuidance)

/-! ## Gravity database model (`add_adlists.py`)

The fallback path `edit_db_on_host` edits the SQLite file directly.  The
database is embedded as explicit row lists for the three tables the script
touches; `INSERT OR IGNORE` relies on the gravity schema's uniqueness
constraints (`adlist.address` unique, `"group".id` and the
`adlist_by_group` pair primary keys), modeled by the existence tests below.
SQLite's `strftime('%s','now')` is the explicit `now` parameter. -/

/-- A row of the `adlist` table (the columns the script touches). -/
structure AdlistRow where
  id : Nat
  address : String
  enabled : Nat
  date_added : Nat
  date_modified : Nat
  comment : String
  deriving DecidableEq, Repr

/-- A row of the `"group"` table. -/
structure GroupRow where
  id : Nat
  enabled : Nat
  name : String
  description : String
  deriving DecidableEq, Repr

/-- The gravity database: the set of table names present (for the schema
sanity check) and the three row lists. -/
structure GravityDB where
  tables : List String
  groups : List GroupRow
  adlists : List AdlistRow
  adlist_by_group : List (Nat × Nat)
  deriving DecidableEq, Repr

/-- `add_adlists.ADLISTS`: the fixed (url, comment) configuration list. -/
def ADLISTS : List (String × String) :=
  [("https://big.oisd.nl/", "OISD Big"),
   ("https://v.firebog.net/hosts/Easyprivacy.txt", "EasyPrivacy (Firebog)"),
   ("https://v.firebog.net/hosts/AdguardDNS.txt", "AdGuard DNS (Firebog)")]

/-- `add_adlists.DEFAULT_GROUP_ID`. -/
def DEFAULT_GROUP_ID : Nat := 0

/-- SQLite rowid assignment for a fresh `adlist` row: one more than the
largest id in the table. -/
def nextAdlistId (db : GravityDB) : Nat :=
  (db.adlists.map (fun r => r.id)).foldr max 0 + 1

/-- `INSERT OR IGNORE INTO adlist(address, enabled, date_added,
date_modified, comment) VALUES (?, 1, now, now, ?)`: a no-op when a row with
this address exists, otherwise a fresh enabled row. -/
def insertOrIgnoreAdlist (now : Nat) (url c : String) (db : GravityDB) : GravityDB :=
  if db.adlists.any (fun r => r.address == url) then db
  else { db with adlists := db.adlists ++ [⟨nextAdlistId db, url, 1, now, now, c⟩] }

/-- The row transformation of `UPDATE adlist SET enabled=1,
date_modified=now, comment=? WHERE address=?`. -/
def updFn (now : Nat) (url c : String) (r : AdlistRow) : AdlistRow :=
  if r.address == url then { r with enabled := 1, date_modified := now, comment := c }
  else r

/-- `UPDATE adlist SET enabled=1, date_modified=now, comment=? WHERE
address=?`. -/
def updateAdlist (now : Nat) (url c : String) (db : GravityDB) : GravityDB :=
  { db with adlists := db.adlists.map (updFn now url c) }

/-- Row-by-row `INSERT OR IGNORE INTO adlist_by_group(adlist_id, group_id)`:
each id is linked to `gid` unless that pair is already present. -/
def insertLinks (gid : Nat) (ids : List Nat) (pairs : List (Nat × Nat)) :
    List (Nat × Nat) :=
  ids.foldl (fun acc i => if (i, gid) ∈ acc then acc else acc ++ [(i, gid)]) pairs

/-- `INSERT OR IGNORE INTO adlist_by_group(adlist_id, group_id) SELECT id, ?
FROM adlist WHERE address=?`. -/
def linkAdlistDefaultGroup (url : String) (db : GravityDB) : GravityDB :=
  let ids := (db.adlists.filter (fun r => r.address == url)).map (fun r => r.id)
  { db with adlist_by_group := insertLinks DEFAULT_GROUP_ID ids db.adlist_by_group }

/-- One iteration of the `for url, desc in ADLISTS` loop of
`edit_db_on_host`: insert-or-ignore, unconditional update, group link. -/
def upsert_adlist (now : Nat) (url c : String) (db : GravityDB) : GravityDB :=
  linkAdlistDefaultGroup url (updateAdlist now url c (insertOrIgnoreAdlist now url c db))

/-- The default-group block of `edit_db_on_host`: `INSERT OR IGNORE INTO
"group"(id, enabled, name, description) VALUES (0, 1, 'Default',
'Auto-created')` followed by `UPDATE "group" SET enabled=1 WHERE id=0`. -/
def ensure_default_group (db : GravityDB) : GravityDB :=
  let db1 :=
    if db.groups.any (fun g => g.id == DEFAULT_GROUP_ID) then db
    else { db with groups := db.groups ++ [⟨DEFAULT_GROUP_ID, 1, "Default", "Auto-created"⟩] }
  { db1 with groups := db1.groups.map (fun g =>
      if g.id == DEFAULT_GROUP_ID then { g with enabled := 1 } else g) }

/-- The three tables `edit_db_on_host` requires. -/
def requiredTables : List String := ["adlist", "adlist_by_group", "group"]

/-- `need - have` of the sanity check; `requiredTables` is alphabetically
ordered, so this filter equals Python's `sorted(miss)`. -/
def missingTables (db : GravityDB) : List String :=
  requiredTables.filter (fun t => !(db.tables.contains t))

/-- The `SystemExit` message of the failed sanity check. -/
def schemaErrMsg (db : GravityDB) : String :=
  "Unexpected DB schema; missing tables: " ++ joinSep ", " (missingTables db)

/-- `add_adlists.edit_db_on_host`: the schema sanity check aborts before any
write; otherwise the default group is ensured and each configured adlist is
upserted and linked.  The result pairs the fatal message (`none` on success)
with the final database state — on the error path the state is returned
untouched, as the source raises before any mutating statement. -/
def edit_db_on_host (now : Nat) (db : GravityDB) : Option String × GravityDB :=
  if missingTables db = [] then
    (none, ADLISTS.foldl (fun d p => upsert_adlist now p.1 p.2 d) (ensure_default_group db))
  else
    (some (schemaErrMsg db), db)

/-! ## Idempotence of the provisioner's database edit (claim C2)

The key invariants: after one run the default group exists and is enabled
(`SatGroup`), and each configured url has its rows enabled, stamped,
commented and linked (`SatAdlist`); every statement of a second run at the
same clock value is then the identity. -/

/-- The default group row exists and every row with the default id is
enabled. -/
def SatGroup (groups : List GroupRow) : Prop :=
  (∃ g ∈ groups, g.id = DEFAULT_GROUP_ID) ∧
  (∀ g ∈ groups, g.id = DEFAULT_GROUP_ID → g.enabled = 1)

/-- A row for `url` exists, and every row for `url` is enabled, has
`date_modified = now`, carries the configured comment, and is linked to the
default group. -/
def SatAdlist (now : Nat) (url c : String) (adlists : List AdlistRow)
    (pairs : List (Nat × Nat)) : Prop :=
  (∃ r ∈ adlists, r.address = url) ∧
  (∀ r ∈ adlists, r.address = url →
    r.enabled = 1 ∧ r.date_modified = now ∧ r.comment = c ∧
    (r.id, DEFAULT_GROUP_ID) ∈ pairs)

/-- The `for url, desc in ADLISTS` loop of `edit_db_on_host`, as run on an
already-validated database. -/
def applyAdlists (now : Nat) (db : GravityDB) : GravityDB :=
  ADLISTS.foldl (fun d p => upsert_adlist now p.1 p.2 d) db

/-- Claim C4: the archive-naming function (strip leading slashes, replace
every slash with a double underscore, append the archive suffix) maps
`/etc/pihole` to `etc__pihole.tar.gz` and `/home/u/data` to
`home__u__data.tar.gz`, and is injective over the allow-listed path space
used in the tests (pairwise distinct images).  Purity and determinism are
inherent: `safe_archive_name_from_src` is a total Lean function of its
argument alone. -/
theorem safe_archive_name_correct :
    safe_archive_name_from_src "/etc/pihole" = "etc__pihole.tar.gz" ∧
    safe_archive_name_from_src "/home/u/data" = "home__u__data.tar.gz" ∧
    allowListedTestPaths.Pairwise
      (fun a b => safe_archive_name_from_src a ≠ safe_archive_name_from_src b) := by
  refine ⟨by decide, by decide, by decide⟩

/-- Claim C9: the patcher's archive-naming function and the inspector's
expected-bind-archive-naming function are extensionally equal: on every host
path string they return the same filename (the two sources duplicate the same
three-step transformation). -/
theorem naming_convention_shared :
    ∀ src : String, safe_archive_name_from_src src = bind_name src :=
  fun _ => rfl

/-- Claim C1: for prefixes and paths that are already in normal form (which
`pathlib` normalization fixes), the inclusion test accepts `src` iff `src`
equals some allowed prefix or starts with that prefix followed by the path
separator; the witness below checks the sibling path `/etc/pihole2` is
rejected against the prefix `/etc/pihole`. -/
theorem should_include_path_correct (src : String) (prefixes : List String)
    (hs : normPath src = src) (hp : ∀ p ∈ prefixes, normPath p = p) :
    should_include_path src prefixes = true ↔
      ∃ p ∈ prefixes, src = p ∨ strStartsWith src (p ++ "/") = true := by
  simp only [should_include_path, List.any_eq_true, Bool.or_eq_true, beq_iff_eq]
  constructor
  · rintro ⟨p, hmem, h⟩
    exact ⟨p, hmem, by rwa [hs, hp p hmem] at h⟩
  · rintro ⟨p, hmem, h⟩
    exact ⟨p, hmem, by rwa [hs, hp p hmem]⟩

/-- Witness for C1 at a concrete input: the sibling path `/etc/pihole2`
shares a string prefix with `/etc/pihole` but lacks the separator boundary,
so it is not included. -/
theorem should_include_path_correct_witness :
    should_include_path "/etc/pihole2" ["/etc/pihole"] = false := by
  have h := should_include_path_correct "/etc/pihole2" ["/etc/pihole"]
    (by decide) (by decide)
  have hno : ¬ ∃ p ∈ ["/etc/pihole"],
      "/etc/pihole2" = p ∨ strStartsWith "/etc/pihole2" (p ++ "/") = true := by decide
  cases hb : should_include_path "/etc/pihole2" ["/etc/pihole"]
  · rfl
  · exact absurd (h.mp hb) hno

/-- Membership characterization of the missing list, tuple by tuple. -/
theorem computeMissing_mem (filtered : List (String × String × String))
    (existing : List String) (c s d arc : String) :
    (c, s, d, arc) ∈ computeMissing filtered existing ↔
      ((c, s, d) ∈ filtered ∧ safe_archive_name_from_src s = arc ∧ arc ∉ existing) := by
  induction filtered with
  | nil => simp [computeMissing]
  | cons head rest ih =>
    obtain ⟨c1, s1, d1⟩ := head
    by_cases hmem : safe_archive_name_from_src s1 ∈ existing
    · simp only [computeMissing, if_pos hmem, List.nil_append, ih, List.mem_cons,
        Prod.mk.injEq]
      constructor
      · rintro ⟨h1, h2, h3⟩
        exact ⟨Or.inr h1, h2, h3⟩
      · rintro ⟨h1 | h1, h2, h3⟩
        · obtain ⟨hc, hs1, hd⟩ := h1
          subst hs1
          exact absurd (h2 ▸ hmem) h3
        · exact ⟨h1, h2, h3⟩
    · simp only [computeMissing, if_neg hmem, List.cons_append, List.nil_append,
        List.mem_cons, ih, Prod.mk.injEq]
      constructor
      · rintro (⟨hc, hs1, hd, harc⟩ | ⟨h1, h2, h3⟩)
        · subst hc; subst hs1; subst hd; subst harc
          exact ⟨Or.inl ⟨rfl, rfl, rfl⟩, rfl, hmem⟩
        · exact ⟨Or.inr h1, h2, h3⟩
      · rintro ⟨h1 | h1, h2, h3⟩
        · obtain ⟨hc, hs1, hd⟩ := h1
          subst hc; subst hs1; subst hd
          exact Or.inl ⟨rfl, rfl, rfl, h2.symm⟩
        · exact Or.inr ⟨h1, h2, h3⟩

/-- Claim C5: an archive name is in the patcher's missing set iff it is
derived (via `safe_archive_name_from_src`) from some candidate bind mount and
is not among the archive names already present: the missing set is exactly
the candidate-derived names minus the existing names. -/
theorem missing_set_correct (filtered : List (String × String × String))
    (existing : List String) (arc : String) :
    (∃ c s d, (c, s, d, arc) ∈ computeMissing filtered existing) ↔
      ((∃ c s d, (c, s, d) ∈ filtered ∧ safe_archive_name_from_src s = arc) ∧
        arc ∉ existing) := by
  constructor
  · rintro ⟨c, s, d, h⟩
    rw [computeMissing_mem] at h
    exact ⟨⟨c, s, d, h.1, h.2.1⟩, h.2.2⟩
  · rintro ⟨⟨c, s, d, h1, h2⟩, h3⟩
    exact ⟨c, s, d, (computeMissing_mem _ _ _ _ _ _).mpr ⟨h1, h2, h3⟩⟩

/-- Witness for C5 at the spec's example: existing `{a.tar.gz}` and
candidates deriving `{a.tar.gz, b.tar.gz}` yield exactly `{b.tar.gz}`. -/
theorem missing_set_correct_witness :
    (∃ c s d, (c, s, d, "b.tar.gz") ∈
        computeMissing [("c1", "/a", "/da"), ("c2", "/b", "/db")] ["a.tar.gz"]) ∧
    ¬ (∃ c s d, (c, s, d, "a.tar.gz") ∈
        computeMissing [("c1", "/a", "/da"), ("c2", "/b", "/db")] ["a.tar.gz"]) := by
  constructor
  · exact (missing_set_correct _ _ _).mpr ⟨⟨"c2", "/b", "/db", by decide, by decide⟩, by decide⟩
  · intro h
    exact ((missing_set_correct _ _ _).mp h).2 (by decide)

/-- Claim C10: auto-detection returns the exact name `pihole` when present;
otherwise the first listed name containing `pihole` case-insensitively; and
when listing fails or no name matches, it fails with the user error telling
the caller to pass `--container`. -/
theorem detect_container_name_correct (names : List String) :
    detect_container_name none = .error detectErrMsg ∧
    ("pihole" ∈ names → detect_container_name (some names) = .ok "pihole") ∧
    ("pihole" ∉ names → ∀ n,
      (detect_container_name (some names) = .ok n ↔
        strContains (strToLower n) "pihole" = true ∧
          ∃ pre post, names = pre ++ n :: post ∧
            ∀ m ∈ pre, strContains (strToLower m) "pihole" = false)) ∧
    ("pihole" ∉ names → (∀ m ∈ names, strContains (strToLower m) "pihole" = false) →
      detect_container_name (some names) = .error detectErrMsg) := by
  refine ⟨rfl, ?_, ?_, ?_⟩
  · intro hmem
    simp [detect_container_name, hmem]
  · intro hmem n
    simp only [detect_container_name, if_neg hmem]
    constructor
    · intro h
      have hfind : names.find? (fun n => strContains (strToLower n) "pihole") = some n := by
        cases hf : names.find? (fun n => strContains (strToLower n) "pihole") with
        | none => rw [hf] at h; exact absurd h (by simp)
        | some m => rw [hf] at h; cases h; rfl
      rw [List.find?_eq_some] at hfind
      obtain ⟨hpn, pre, post, heq, hpre⟩ := hfind
      exact ⟨hpn, pre, post, heq, fun m hm => by simpa using hpre m hm⟩
    · rintro ⟨hpn, pre, post, heq, hpre⟩
      have : names.find? (fun n => strContains (strToLower n) "pihole") = some n := by
        rw [List.find?_eq_some]
        exact ⟨hpn, pre, post, heq, fun m hm => by simpa using hpre m hm⟩
      rw [this]
  · intro hmem hnone
    have : names.find? (fun n => strContains (strToLower n) "pihole") = none := by
      rw [List.find?_eq_none]
      intro m hm
      simp [hnone m hm]
    simp [detect_container_name, if_neg hmem, this]

/-- Witness for C10 at a concrete input: with running containers
`["caddy", "myPihole2", "pihole9"]` (exact name `pihole` absent), detection
returns the first case-insensitive match `myPihole2`. -/
theorem detect_container_name_correct_witness :
    detect_container_name (some ["caddy", "myPihole2", "pihole9"]) = .ok "myPihole2" := by
  have h := (detect_container_name_correct ["caddy", "myPihole2", "pihole9"]).2.2.1
    (by decide) "myPihole2"
  exact h.mpr ⟨by decide, ["caddy"], ["pihole9"], by decide, by decide⟩

/-- The `created` list of a non-dry run holds exactly the derived names of
the mounts that were missing and whose archive command succeeded. -/
theorem ensureLoop_created_mem (bind_dir : String) (existing : List String)
    (tarFails : String → Bool) (mounts : List (String × String × String))
    (arc : String) :
    arc ∈ (ensureLoop bind_dir existing false tarFails mounts).2 ↔
      ∃ c s d, (c, s, d) ∈ mounts ∧ arc = safe_archive_name_from_src s ∧
        safe_archive_name_from_src s ∉ existing ∧ tarFails s = false := by
  induction mounts with
  | nil => simp [ensureLoop]
  | cons m rest ih =>
    obtain ⟨c1, s1, d1⟩ := m
    simp only [ensureLoop, processMount, List.mem_append, ih]
    by_cases hmem : safe_archive_name_from_src s1 ∈ existing
    · simp only [if_pos hmem, List.not_mem_nil, false_or, List.mem_cons, Prod.mk.injEq]
      constructor
      · rintro ⟨c, s, d, h1, h2, h3, h4⟩
        exact ⟨c, s, d, Or.inr h1, h2, h3, h4⟩
      · rintro ⟨c, s, d, ⟨hc, hs1, hd⟩ | h1, h2, h3, h4⟩
        · subst hs1; exact absurd hmem h3
        · exact ⟨c, s, d, h1, h2, h3, h4⟩
    · by_cases htf : tarFails s1 = true
      · simp only [if_neg hmem, Bool.false_eq_true, if_false, htf, if_true,
          List.not_mem_nil, false_or, List.mem_cons, Prod.mk.injEq]
        constructor
        · rintro ⟨c, s, d, h1, h2, h3, h4⟩
          exact ⟨c, s, d, Or.inr h1, h2, h3, h4⟩
        · rintro ⟨c, s, d, ⟨hc, hs1, hd⟩ | h1, h2, h3, h4⟩
          · subst hs1; exact absurd htf (by simp [h4])
          · exact ⟨c, s, d, h1, h2, h3, h4⟩
      · have htf' : tarFails s1 = false := by
          cases h : tarFails s1
          · rfl
          · exact absurd h htf
        simp only [if_neg hmem, Bool.false_eq_true, if_false, htf', List.mem_singleton,
          List.mem_cons, List.not_mem_nil, or_false, Prod.mk.injEq]
        constructor
        · rintro (h | ⟨c, s, d, h1, h2, h3, h4⟩)
          · exact ⟨c1, s1, d1, Or.inl ⟨rfl, rfl, rfl⟩, h, hmem, htf'⟩
          · exact ⟨c, s, d, Or.inr h1, h2, h3, h4⟩
        · rintro ⟨c, s, d, ⟨hc, hs1, hd⟩ | h1, h2, h3, h4⟩
          · subst hs1; exact Or.inl h2
          · exact Or.inr ⟨c, s, d, h1, h2, h3, h4⟩

/-- Every missing mount gets its archive command attempted, no matter what
happened to the mounts before it. -/
theorem ensureLoop_tar_attempted (bind_dir : String) (existing : List String)
    (tarFails : String → Bool) (mounts : List (String × String × String))
    (c s d : String) (h : (c, s, d) ∈ mounts)
    (hmiss : safe_archive_name_from_src s ∉ existing) :
    Eff.sudoTar (bind_dir ++ "/" ++ safe_archive_name_from_src s) (pyLStrip s '/') ∈
      (ensureLoop bind_dir existing false tarFails mounts).1 := by
  induction mounts with
  | nil => exact absurd h (List.not_mem_nil _)
  | cons m rest ih =>
    rcases List.mem_cons.mp h with hhead | htail
    · subst hhead
      simp only [ensureLoop, processMount, if_neg hmiss, Bool.false_eq_true, if_false,
        List.mem_append]
      cases htf : tarFails s <;> simp
    · simp only [ensureLoop, List.mem_append]
      exact Or.inr (ih htail)

/-- A failing mount is reported on the error stream. -/
theorem ensureLoop_err_reported (bind_dir : String) (existing : List String)
    (tarFails : String → Bool) (mounts : List (String × String × String))
    (c s d : String) (h : (c, s, d) ∈ mounts)
    (hmiss : safe_archive_name_from_src s ∉ existing) (hfail : tarFails s = true) :
    Eff.stderrTarFailed s ∈ (ensureLoop bind_dir existing false tarFails mounts).1 := by
  induction mounts with
  | nil => exact absurd h (List.not_mem_nil _)
  | cons m rest ih =>
    rcases List.mem_cons.mp h with hhead | htail
    · subst hhead
      simp only [ensureLoop, processMount, if_neg hmiss, Bool.false_eq_true, if_false,
        hfail, if_true, List.mem_append]
      simp
    · simp only [ensureLoop, List.mem_append]
      exact Or.inr (ih htail)

/-- Claim C7: in the patcher's archiving loop (non-dry run) a failure on one
path is reported to stderr and skipped while every other missing path is
still processed: the archive command is attempted for every missing mount
regardless of other mounts' failures, each failing mount leaves an error
report in the trace, and the `created` result lists exactly the names of the
mounts whose archive command succeeded. -/
theorem archive_failure_tolerated (mounts : List (String × String × String))
    (bind_dir : String) (existing : List String) (tarFails : String → Bool) :
    (∀ arc, arc ∈ (ensure_bind_archives mounts bind_dir false existing tarFails).2 ↔
      ∃ c s d, (c, s, d) ∈ mounts ∧ arc = safe_archive_name_from_src s ∧
        safe_archive_name_from_src s ∉ existing ∧ tarFails s = false) ∧
    (∀ c s d, (c, s, d) ∈ mounts → safe_archive_name_from_src s ∉ existing →
      Eff.sudoTar (bind_dir ++ "/" ++ safe_archive_name_from_src s) (pyLStrip s '/') ∈
        (ensure_bind_archives mounts bind_dir false existing tarFails).1) ∧
    (∀ c s d, (c, s, d) ∈ mounts → safe_archive_name_from_src s ∉ existing →
      tarFails s = true →
      Eff.stderrTarFailed s ∈
        (ensure_bind_archives mounts bind_dir false existing tarFails).1) := by
  refine ⟨?_, ?_, ?_⟩
  · intro arc
    simpa [ensure_bind_archives] using
      ensureLoop_created_mem bind_dir existing tarFails mounts arc
  · intro c s d h hmiss
    simp only [ensure_bind_archives, List.mem_cons]
    exact Or.inr (Or.inr (ensureLoop_tar_attempted bind_dir existing tarFails mounts
      c s d h hmiss))
  · intro c s d h hmiss hfail
    simp only [ensure_bind_archives, List.mem_cons]
    exact Or.inr (Or.inr (ensureLoop_err_reported bind_dir existing tarFails mounts
      c s d h hmiss hfail))

/-- Witness for C7 at a concrete input: two missing mounts, the first one's
tar fails; the second is still archived, the failure is on the trace, and
the failed path is not in `created`. -/
theorem archive_failure_tolerated_witness :
    ("b.tar.gz" ∈ (ensure_bind_archives [("c1", "/a", "/xa"), ("c2", "/b", "/xb")]
        "/bk" false [] (fun s => s == "/a")).2) ∧
    (Eff.sudoTar ("/bk" ++ "/" ++ safe_archive_name_from_src "/a") (pyLStrip "/a" '/') ∈
      (ensure_bind_archives [("c1", "/a", "/xa"), ("c2", "/b", "/xb")]
        "/bk" false [] (fun s => s == "/a")).1) ∧
    (Eff.stderrTarFailed "/a" ∈
      (ensure_bind_archives [("c1", "/a", "/xa"), ("c2", "/b", "/xb")]
        "/bk" false [] (fun s => s == "/a")).1) := by
  have h := archive_failure_tolerated [("c1", "/a", "/xa"), ("c2", "/b", "/xb")]
    "/bk" [] (fun s => s == "/a")
  refine ⟨?_, ?_, ?_⟩
  · exact (h.1 "b.tar.gz").mpr ⟨"c2", "/b", "/xb", by decide, by decide, by decide, by decide⟩
  · exact h.2.1 "c1" "/a" "/xa" (by decide) (by decide)
  · exact h.2.2 "c1" "/a" "/xa" (by decide) (by decide) (by decide)

/-- Claim C3 (divergence evidence): even in dry-run mode the patcher creates
the bind-mount directory (`bind_dir.mkdir(parents=True, exist_ok=True)` runs
before the dry-run test), and with `--rebuild-image` the external rebuild
script is run (the rebuild step never consults `dry_run`) — both are
filesystem/external mutations beyond existence checks. -/
theorem dry_run_still_mutates :
    (Eff.mkdirP "/backup/bind-mounts" ∈
      (ensure_bind_archives [("pihole", "/etc/pihole", "/etc/pihole")]
        "/backup/bind-mounts" true [] (fun _ => false)).1) ∧
    (Eff.runMakeScript ∈ rebuild_image_step true true true) := by
  exact ⟨by decide, by decide⟩

theorem charsLe_refl (a : List Char) : charsLe a a = true := by
  induction a with
  | nil => rfl
  | cons x xs ih =>
    simp only [charsLe, if_neg (Nat.lt_irrefl x.toNat)]
    exact ih

theorem charsLe_total (a b : List Char) : charsLe a b = true ∨ charsLe b a = true := by
  induction a generalizing b with
  | nil => left; rfl
  | cons x xs ih =>
    cases b with
    | nil => right; rfl
    | cons y ys =>
      by_cases h1 : x.toNat < y.toNat
      · left; simp [charsLe, h1]
      · by_cases h2 : y.toNat < x.toNat
        · right; simp [charsLe, h2]
        · simp only [charsLe, if_neg h1, if_neg h2]
          exact ih ys

theorem charsLe_trans : ∀ (a b c : List Char),
    charsLe a b = true → charsLe b c = true → charsLe a c = true := by
  intro a
  induction a with
  | nil => intro b c _ _; rfl
  | cons x xs ih =>
    intro b c h1 h2
    cases b with
    | nil => simp [charsLe] at h1
    | cons y ys =>
      cases c with
      | nil => simp [charsLe] at h2
      | cons z zs =>
        simp only [charsLe] at h1 h2 ⊢
        by_cases hxy : x.toNat < y.toNat
        · by_cases hyz : y.toNat < z.toNat
          · rw [if_pos (show x.toNat < z.toNat by omega)]
          · by_cases hzy : z.toNat < y.toNat
            · rw [if_neg hyz, if_pos hzy] at h2
              exact absurd h2 (by simp)
            · rw [if_pos (show x.toNat < z.toNat by omega)]
        · by_cases hyx : y.toNat < x.toNat
          · rw [if_neg hxy, if_pos hyx] at h1
            exact absurd h1 (by simp)
          · by_cases hyz : y.toNat < z.toNat
            · rw [if_pos (show x.toNat < z.toNat by omega)]
            · by_cases hzy : z.toNat < y.toNat
              · rw [if_neg hyz, if_pos hzy] at h2
                exact absurd h2 (by simp)
              · rw [if_neg hxy, if_neg hyx] at h1
                rw [if_neg hyz, if_neg hzy] at h2
                rw [if_neg (show ¬ x.toNat < z.toNat by omega),
                  if_neg (show ¬ z.toNat < x.toNat by omega)]
                exact ih ys zs h1 h2

/-- The last element of an ascending-sorted list bounds every element. -/
theorem sorted_getLast_ub : ∀ (l : List String),
    List.Sorted (fun a b : String => strLe a b = true) l →
    ∀ m, l.getLast? = some m → ∀ x ∈ l, strLe x m = true := by
  intro l
  induction l with
  | nil => intro _ m hm; simp at hm
  | cons a t ih =>
    intro h m hm x hx
    cases t with
    | nil =>
      have hma : a = m := by simpa using hm
      have hxa : x = a := by simpa using hx
      subst hma; subst hxa
      exact charsLe_refl _
    | cons b t2 =>
      rw [List.getLast?_cons_cons] at hm
      rcases List.mem_cons.mp hx with rfl | hx2
      · have hmem : m ∈ b :: t2 := by
          obtain ⟨ys, hys⟩ := List.getLast?_eq_some_iff.mp hm
          rw [hys]
          exact List.mem_append.mpr (Or.inr (List.mem_singleton.mpr rfl))
        exact List.rel_of_sorted_cons h m hmem
      · exact ih h.of_cons m hm x hx2

/-- Claim C8: an explicit tag takes precedence; with no explicit tag the
inspector picks, among locally available images whose name starts with
`homelab-backup:`, the lexicographically greatest one; when no such image
exists it fails with exit status 2 and the guidance text; and the candidate
list it prints on a create failure (`list_backup_images()`) holds exactly
the images with that prefix. -/
theorem image_resolution_correct (lines : List String) :
    (∀ i, resolve_image (some i) false lines = .ok i) ∧
    ((∃ x ∈ lines, strStartsWith x "homelab-backup:" = true) →
      ∃ img, resolve_image none false lines = .ok img ∧ img ∈ lines ∧
        strStartsWith img "homelab-backup:" = true ∧
        ∀ x ∈ lines, strStartsWith x "homelab-backup:" = true → strLe x img = true) ∧
    ((∀ x ∈ lines, strStartsWith x "homelab-backup:" = false) →
      resolve_image none false lines = .error (2, noImageGuidance)) ∧
    (∀ x, x ∈ list_backup_images lines ↔
      (x ∈ lines ∧ strStartsWith x "homelab-backup:" = true)) := by
  have hperm := List.perm_insertionSort (fun a b : String => strLe a b = true)
    (lines.filter (fun i => strStartsWith i "homelab-backup:"))
  have hmem : ∀ x, x ∈ list_backup_images lines ↔
      (x ∈ lines ∧ strStartsWith x "homelab-backup:" = true) := by
    intro x
    rw [list_backup_images, hperm.mem_iff, List.mem_filter]
  refine ⟨fun i => rfl, ?_, ?_, hmem⟩
  · rintro ⟨x, hx, hpx⟩
    have hxs : x ∈ list_backup_images lines := (hmem x).mpr ⟨hx, hpx⟩
    have hne : list_backup_images lines ≠ [] := by
      intro hnil
      rw [hnil] at hxs
      exact List.not_mem_nil x hxs
    obtain ⟨m, hm⟩ := Option.isSome_iff_exists.mp (List.getLast?_isSome.mpr hne)
    have hmm : m ∈ list_backup_images lines := by
      obtain ⟨ys, hys⟩ := List.getLast?_eq_some_iff.mp hm
      rw [hys]
      exact List.mem_append.mpr (Or.inr (List.mem_singleton.mpr rfl))
    obtain ⟨hml, hmp⟩ := (hmem m).mp hmm
    refine ⟨m, ?_, hml, hmp, ?_⟩
    · simp [resolve_image, autodetect_image, hm]
    · intro y hy hpy
      haveI : IsTotal String (fun a b : String => strLe a b = true) :=
        ⟨fun a b => charsLe_total a.toList b.toList⟩
      haveI : IsTrans String (fun a b : String => strLe a b = true) :=
        ⟨fun a b c => charsLe_trans a.toList b.toList c.toList⟩
      exact sorted_getLast_ub (list_backup_images lines)
        (List.sorted_insertionSort _ _) m hm y ((hmem y).mpr ⟨hy, hpy⟩)
  · intro hall
    have hnil : lines.filter (fun i => strStartsWith i "homelab-backup:") = [] := by
      rw [List.filter_eq_nil_iff]
      intro a ha
      simp [hall a ha]
    have : list_backup_images lines = [] := by
      rw [list_backup_images, hnil]
      rfl
    simp [resolve_image, autodetect_image, this]

/-- Witness for C8 at a concrete input: among two prefixed images and one
unrelated image, the lexicographically greater timestamp tag is selected. -/
theorem image_resolution_correct_witness :
    (∃ x ∈ ["nginx:latest", "homelab-backup:2025-08-12_201735",
        "homelab-backup:2025-08-13_101010"],
      strStartsWith x "homelab-backup:" = true) ∧
    (∃ img, resolve_image none false ["nginx:latest", "homelab-backup:2025-08-12_201735",
        "homelab-backup:2025-08-13_101010"] = .ok img ∧
      img ∈ ["nginx:latest", "homelab-backup:2025-08-12_201735",
        "homelab-backup:2025-08-13_101010"] ∧
      strStartsWith img "homelab-backup:" = true ∧
      ∀ x ∈ ["nginx:latest", "homelab-backup:2025-08-12_201735",
          "homelab-backup:2025-08-13_101010"],
        strStartsWith x "homelab-backup:" = true → strLe x img = true) :=
  ⟨by decide, (image_resolution_correct _).2.1 (by decide)⟩

/-- Claim C6: in the fallback path, absence of any of the three required
tables (`adlist`, `adlist_by_group`, `group`) is a fatal reported error
raised before any write — the database is returned completely unchanged —
and the write pipeline runs only when all three tables exist. -/
theorem schema_validation_guards_writes (now : Nat) (db : GravityDB) :
    ((∃ t ∈ requiredTables, t ∉ db.tables) →
      edit_db_on_host now db = (some (schemaErrMsg db), db)) ∧
    ((∀ t ∈ requiredTables, t ∈ db.tables) →
      (edit_db_on_host now db).1 = none) := by
  constructor
  · rintro ⟨t, ht, hmem⟩
    have hne : missingTables db ≠ [] := by
      intro hnil
      have := List.filter_eq_nil_iff.mp hnil t ht
      simp at this
      exact hmem this
    simp [edit_db_on_host, hne]
  · intro hall
    have hnil : missingTables db = [] := by
      rw [missingTables, List.filter_eq_nil_iff]
      intro t ht
      simp [hall t ht]
    simp [edit_db_on_host, hnil]

/-- Witness for C6 at concrete inputs: a database missing the `group` table
is rejected with the exact message and left unchanged, and a database with
all three tables passes the check. -/
theorem schema_validation_guards_writes_witness :
    (edit_db_on_host 7 ⟨["adlist", "adlist_by_group"], [], [], []⟩ =
      (some "Unexpected DB schema; missing tables: group",
        ⟨["adlist", "adlist_by_group"], [], [], []⟩)) ∧
    ((edit_db_on_host 7 ⟨["adlist", "adlist_by_group", "group"], [], [], []⟩).1 = none) := by
  constructor
  · have h := (schema_validation_guards_writes 7
      ⟨["adlist", "adlist_by_group"], [], [], []⟩).1 ⟨"group", by decide, by decide⟩
    rw [h]
    have : schemaErrMsg ⟨["adlist", "adlist_by_group"], [], [], []⟩ =
        "Unexpected DB schema; missing tables: group" := by decide
    rw [this]
  · exact (schema_validation_guards_writes 7
      ⟨["adlist", "adlist_by_group", "group"], [], [], []⟩).2 (by decide)

theorem map_self_of_fix {α : Type} (f : α → α) :
    ∀ (l : List α), (∀ a ∈ l, f a = a) → l.map f = l := by
  intro l
  induction l with
  | nil => intro _; rfl
  | cons a t ih =>
    intro h
    simp only [List.map_cons]
    rw [h a (List.mem_cons_self a t), ih (fun x hx => h x (List.mem_cons_of_mem a hx))]

theorem insertOrIgnoreAdlist_groups (now : Nat) (url c : String) (db : GravityDB) :
    (insertOrIgnoreAdlist now url c db).groups = db.groups := by
  unfold insertOrIgnoreAdlist; split <;> rfl

theorem insertOrIgnoreAdlist_tables (now : Nat) (url c : String) (db : GravityDB) :
    (insertOrIgnoreAdlist now url c db).tables = db.tables := by
  unfold insertOrIgnoreAdlist; split <;> rfl

theorem insertOrIgnoreAdlist_links (now : Nat) (url c : String) (db : GravityDB) :
    (insertOrIgnoreAdlist now url c db).adlist_by_group = db.adlist_by_group := by
  unfold insertOrIgnoreAdlist; split <;> rfl

theorem upsert_adlist_groups (now : Nat) (url c : String) (db : GravityDB) :
    (upsert_adlist now url c db).groups = db.groups := by
  show (updateAdlist now url c (insertOrIgnoreAdlist now url c db)).groups = db.groups
  show (insertOrIgnoreAdlist now url c db).groups = db.groups
  exact insertOrIgnoreAdlist_groups now url c db

theorem upsert_adlist_tables (now : Nat) (url c : String) (db : GravityDB) :
    (upsert_adlist now url c db).tables = db.tables := by
  show (insertOrIgnoreAdlist now url c db).tables = db.tables
  exact insertOrIgnoreAdlist_tables now url c db

theorem ensure_default_group_adlists (db : GravityDB) :
    (ensure_default_group db).adlists = db.adlists := by
  unfold ensure_default_group; split <;> rfl

theorem ensure_default_group_links (db : GravityDB) :
    (ensure_default_group db).adlist_by_group = db.adlist_by_group := by
  unfold ensure_default_group; split <;> rfl

theorem ensure_default_group_tables (db : GravityDB) :
    (ensure_default_group db).tables = db.tables := by
  unfold ensure_default_group; split <;> rfl

theorem ensure_default_group_groups (db : GravityDB) :
    (ensure_default_group db).groups =
      (if db.groups.any (fun g => g.id == DEFAULT_GROUP_ID) then db.groups
       else db.groups ++ [⟨DEFAULT_GROUP_ID, 1, "Default", "Auto-created"⟩]).map
        (fun g => if g.id == DEFAULT_GROUP_ID then { g with enabled := 1 } else g) := by
  unfold ensure_default_group; split <;> rfl

theorem ensure_default_group_sat (db : GravityDB) :
    SatGroup (ensure_default_group db).groups := by
  rw [ensure_default_group_groups]
  have hbase : ∃ g ∈ (if db.groups.any (fun g => g.id == DEFAULT_GROUP_ID) then db.groups
      else db.groups ++ [⟨DEFAULT_GROUP_ID, 1, "Default", "Auto-created"⟩]),
      g.id = DEFAULT_GROUP_ID := by
    split
    · next h =>
      obtain ⟨g, hg, hb⟩ := List.any_eq_true.mp h
      exact ⟨g, hg, by simpa using hb⟩
    · exact ⟨⟨DEFAULT_GROUP_ID, 1, "Default", "Auto-created"⟩,
        List.mem_append.mpr (Or.inr (List.mem_singleton.mpr rfl)), rfl⟩
  obtain ⟨g0, hg0, hid0⟩ := hbase
  constructor
  · refine ⟨{ g0 with enabled := 1 }, ?_, hid0⟩
    have : (if g0.id == DEFAULT_GROUP_ID then { g0 with enabled := 1 } else g0) =
        { g0 with enabled := 1 } := by
      rw [if_pos (by simp [hid0])]
    exact this ▸ List.mem_map_of_mem _ hg0
  · intro g' hg' hid'
    obtain ⟨g, hg, hfg⟩ := List.mem_map.mp hg'
    by_cases hb : (g.id == DEFAULT_GROUP_ID) = true
    · rw [if_pos hb] at hfg
      rw [← hfg]
    · rw [if_neg hb] at hfg
      subst hfg
      exact absurd (by simp [hid']) hb

theorem ensure_default_group_eq_of_sat (db : GravityDB) (h : SatGroup db.groups) :
    ensure_default_group db = db := by
  obtain ⟨⟨g0, hg0, hid0⟩, hall⟩ := h
  have hany : db.groups.any (fun g => g.id == DEFAULT_GROUP_ID) = true :=
    List.any_eq_true.mpr ⟨g0, hg0, by simp [hid0]⟩
  unfold ensure_default_group
  rw [if_pos hany]
  show ({ db with groups := db.groups.map (fun g => if g.id == DEFAULT_GROUP_ID then { g with enabled := 1 } else g) } : GravityDB) = db
  have hmap : db.groups.map
      (fun g => if g.id == DEFAULT_GROUP_ID then { g with enabled := 1 } else g) =
        db.groups := by
    apply map_self_of_fix
    intro g hg
    by_cases hb : (g.id == DEFAULT_GROUP_ID) = true
    · rw [if_pos hb]
      have hen := hall g hg (by simpa using hb)
      cases g
      simp_all
    · rw [if_neg hb]
  rw [hmap]

theorem insertLinks_cons (gid i : Nat) (t : List Nat) (pairs : List (Nat × Nat)) :
    insertLinks gid (i :: t) pairs =
      insertLinks gid t (if (i, gid) ∈ pairs then pairs else pairs ++ [(i, gid)]) := rfl

theorem insertLinks_subset (gid : Nat) :
    ∀ (ids : List Nat) (pairs : List (Nat × Nat)) (x : Nat × Nat),
      x ∈ pairs → x ∈ insertLinks gid ids pairs := by
  intro ids
  induction ids with
  | nil => intro pairs x hx; exact hx
  | cons i t ih =>
    intro pairs x hx
    rw [insertLinks_cons]
    apply ih
    split
    · exact hx
    · exact List.mem_append.mpr (Or.inl hx)

theorem insertLinks_mem (gid : Nat) :
    ∀ (ids : List Nat) (pairs : List (Nat × Nat)) (i : Nat),
      i ∈ ids → (i, gid) ∈ insertLinks gid ids pairs := by
  intro ids
  induction ids with
  | nil => intro pairs i hi; exact absurd hi (List.not_mem_nil _)
  | cons j t ih =>
    intro pairs i hi
    rw [insertLinks_cons]
    rcases List.mem_cons.mp hi with rfl | hi2
    · apply insertLinks_subset
      split
      · next h => exact h
      · exact List.mem_append.mpr (Or.inr (List.mem_singleton.mpr rfl))
    · exact ih _ i hi2

theorem insertLinks_eq_of_mem (gid : Nat) :
    ∀ (ids : List Nat) (pairs : List (Nat × Nat)),
      (∀ i ∈ ids, (i, gid) ∈ pairs) → insertLinks gid ids pairs = pairs := by
  intro ids
  induction ids with
  | nil => intro pairs _; rfl
  | cons j t ih =>
    intro pairs h
    rw [insertLinks_cons, if_pos (h j (List.mem_cons_self j t))]
    exact ih pairs (fun i hi => h i (List.mem_cons_of_mem j hi))

theorem insertLinks_nodup (gid : Nat) :
    ∀ (ids : List Nat) (pairs : List (Nat × Nat)),
      pairs.Nodup → (insertLinks gid ids pairs).Nodup := by
  intro ids
  induction ids with
  | nil => intro pairs h; exact h
  | cons j t ih =>
    intro pairs h
    rw [insertLinks_cons]
    by_cases hm : (j, gid) ∈ pairs
    · rw [if_pos hm]; exact ih pairs h
    · rw [if_neg hm]
      exact ih _ (h.append (List.nodup_singleton _)
        (fun x hx hx1 => hm (List.mem_singleton.mp hx1 ▸ hx)))

theorem updFn_address (now : Nat) (url c : String) (r : AdlistRow) :
    (updFn now url c r).address = r.address := by
  unfold updFn; split <;> rfl

theorem upsert_adlist_adlists (now : Nat) (url c : String) (db : GravityDB) :
    (upsert_adlist now url c db).adlists =
      (insertOrIgnoreAdlist now url c db).adlists.map (updFn now url c) := rfl

theorem upsert_adlist_links (now : Nat) (url c : String) (db : GravityDB) :
    (upsert_adlist now url c db).adlist_by_group =
      insertLinks DEFAULT_GROUP_ID
        (((updateAdlist now url c (insertOrIgnoreAdlist now url c db)).adlists.filter
          (fun r => r.address == url)).map (fun r => r.id))
        db.adlist_by_group := by
  show insertLinks DEFAULT_GROUP_ID
      (((updateAdlist now url c (insertOrIgnoreAdlist now url c db)).adlists.filter
        (fun r => r.address == url)).map (fun r => r.id))
      ((insertOrIgnoreAdlist now url c db).adlist_by_group) = _
  rw [insertOrIgnoreAdlist_links]

theorem insertOrIgnoreAdlist_has (now : Nat) (url c : String) (db : GravityDB) :
    ∃ r ∈ (insertOrIgnoreAdlist now url c db).adlists, r.address = url := by
  unfold insertOrIgnoreAdlist
  by_cases hany : (db.adlists.any (fun r => r.address == url)) = true
  · rw [if_pos hany]
    obtain ⟨r, hr, hb⟩ := List.any_eq_true.mp hany
    exact ⟨r, hr, by simpa using hb⟩
  · rw [if_neg hany]
    exact ⟨⟨nextAdlistId db, url, 1, now, now, c⟩, by simp, rfl⟩

theorem insertOrIgnoreAdlist_src (now : Nat) (url c : String) (db : GravityDB) :
    ∀ r ∈ (insertOrIgnoreAdlist now url c db).adlists,
      r ∈ db.adlists ∨ r.address = url := by
  intro r hr
  unfold insertOrIgnoreAdlist at hr
  by_cases hany : (db.adlists.any (fun r => r.address == url)) = true
  · rw [if_pos hany] at hr
    exact Or.inl hr
  · rw [if_neg hany] at hr
    rcases List.mem_append.mp hr with h1 | h1
    · exact Or.inl h1
    · right
      rw [List.mem_singleton.mp h1]

theorem insertOrIgnoreAdlist_keeps (now : Nat) (url c : String) (db : GravityDB) :
    ∀ r ∈ db.adlists, r ∈ (insertOrIgnoreAdlist now url c db).adlists := by
  intro r hr
  unfold insertOrIgnoreAdlist
  by_cases hany : (db.adlists.any (fun r => r.address == url)) = true
  · rw [if_pos hany]; exact hr
  · rw [if_neg hany]; exact List.mem_append.mpr (Or.inl hr)

theorem upsert_adlist_sat (now : Nat) (url c : String) (db : GravityDB) :
    SatAdlist now url c (upsert_adlist now url c db).adlists
      (upsert_adlist now url c db).adlist_by_group := by
  constructor
  · obtain ⟨r, hr, haddr⟩ := insertOrIgnoreAdlist_has now url c db
    rw [upsert_adlist_adlists]
    exact ⟨updFn now url c r, List.mem_map_of_mem _ hr, by rw [updFn_address, haddr]⟩
  · intro r' hr' haddr'
    rw [upsert_adlist_adlists] at hr'
    obtain ⟨r, hr, hfr⟩ := List.mem_map.mp hr'
    have haddr : r.address = url := by
      rw [← hfr, updFn_address] at haddr'
      exact haddr'
    have hbeq : (r.address == url) = true := by simp [haddr]
    have hfields : r'.enabled = 1 ∧ r'.date_modified = now ∧ r'.comment = c := by
      rw [← hfr]
      unfold updFn
      rw [if_pos hbeq]
      exact ⟨rfl, rfl, rfl⟩
    refine ⟨hfields.1, hfields.2.1, hfields.2.2, ?_⟩
    rw [upsert_adlist_links]
    apply insertLinks_mem
    apply List.mem_map_of_mem
    apply List.mem_filter.mpr
    exact ⟨hr', by simp [haddr']⟩

theorem upsert_adlist_eq_of_sat (now : Nat) (url c : String) (db : GravityDB)
    (h : SatAdlist now url c db.adlists db.adlist_by_group) :
    upsert_adlist now url c db = db := by
  obtain ⟨⟨r0, hr0, haddr0⟩, hall⟩ := h
  have h1 : insertOrIgnoreAdlist now url c db = db := by
    unfold insertOrIgnoreAdlist
    rw [if_pos (List.any_eq_true.mpr ⟨r0, hr0, by simp [haddr0]⟩)]
  have hmap : db.adlists.map (updFn now url c) = db.adlists := by
    apply map_self_of_fix
    intro r hr
    unfold updFn
    by_cases hb : (r.address == url) = true
    · rw [if_pos hb]
      have hf := hall r hr (by simpa using hb)
      cases r
      simp_all
    · rw [if_neg hb]
  have h2 : updateAdlist now url c db = db := by
    unfold updateAdlist
    rw [hmap]
  have hmemall : ∀ i ∈ (db.adlists.filter (fun r => r.address == url)).map (fun r => r.id),
      (i, DEFAULT_GROUP_ID) ∈ db.adlist_by_group := by
    intro i hi
    obtain ⟨r, hrf, hri⟩ := List.mem_map.mp hi
    obtain ⟨hr, hb⟩ := List.mem_filter.mp hrf
    rw [← hri]
    exact (hall r hr (by simpa using hb)).2.2.2
  have h3 : linkAdlistDefaultGroup url db = db := by
    unfold linkAdlistDefaultGroup
    show ({ db with adlist_by_group := insertLinks DEFAULT_GROUP_ID ((db.adlists.filter (fun r => r.address == url)).map (fun r => r.id)) db.adlist_by_group } : GravityDB) = db
    rw [insertLinks_eq_of_mem DEFAULT_GROUP_ID _ _ hmemall]
  unfold upsert_adlist
  rw [h1, h2, h3]

theorem upsert_adlist_preserves_sat (now : Nat) (url c url2 c2 : String)
    (db : GravityDB) (hne : url ≠ url2)
    (h : SatAdlist now url c db.adlists db.adlist_by_group) :
    SatAdlist now url c (upsert_adlist now url2 c2 db).adlists
      (upsert_adlist now url2 c2 db).adlist_by_group := by
  obtain ⟨⟨r0, hr0, haddr0⟩, hall⟩ := h
  constructor
  · rw [upsert_adlist_adlists]
    have hr0' := insertOrIgnoreAdlist_keeps now url2 c2 db r0 hr0
    exact ⟨updFn now url2 c2 r0, List.mem_map_of_mem _ hr0',
      by rw [updFn_address, haddr0]⟩
  · intro r' hr' haddr'
    rw [upsert_adlist_adlists] at hr'
    obtain ⟨r, hr, hfr⟩ := List.mem_map.mp hr'
    have haddr : r.address = url := by
      rw [← hfr, updFn_address] at haddr'
      exact haddr'
    have hbeq2 : (r.address == url2) = false := by
      rw [haddr]
      exact beq_eq_false_iff_ne.mpr hne
    have hfr_id : updFn now url2 c2 r = r := by
      unfold updFn
      rw [hbeq2]
      rfl
    have hrr' : r = r' := by rw [← hfr, hfr_id]
    subst hrr'
    rcases insertOrIgnoreAdlist_src now url2 c2 db r hr with hmem | habs
    · have hf := hall r hmem haddr
      refine ⟨hf.1, hf.2.1, hf.2.2.1, ?_⟩
      rw [upsert_adlist_links]
      exact insertLinks_subset _ _ _ _ hf.2.2.2
    · exact absurd (haddr.symm.trans habs) hne

theorem upsert_adlist_preserves_satgroup (now : Nat) (url c : String) (db : GravityDB)
    (h : SatGroup db.groups) : SatGroup (upsert_adlist now url c db).groups := by
  rw [upsert_adlist_groups]
  exact h

theorem ensure_default_group_preserves_sat (now : Nat) (url c : String) (db : GravityDB)
    (h : SatAdlist now url c db.adlists db.adlist_by_group) :
    SatAdlist now url c (ensure_default_group db).adlists
      (ensure_default_group db).adlist_by_group := by
  rw [ensure_default_group_adlists, ensure_default_group_links]
  exact h

theorem upsert_adlist_nodup (now : Nat) (url c : String) (db : GravityDB)
    (h : db.adlist_by_group.Nodup) :
    (upsert_adlist now url c db).adlist_by_group.Nodup := by
  rw [upsert_adlist_links]
  exact insertLinks_nodup _ _ _ h

theorem applyAdlists_eq (now : Nat) (db : GravityDB) :
    applyAdlists now db =
      upsert_adlist now "https://v.firebog.net/hosts/AdguardDNS.txt" "AdGuard DNS (Firebog)"
        (upsert_adlist now "https://v.firebog.net/hosts/Easyprivacy.txt" "EasyPrivacy (Firebog)"
          (upsert_adlist now "https://big.oisd.nl/" "OISD Big" db)) := rfl

theorem applyAdlists_tables (now : Nat) (db : GravityDB) :
    (applyAdlists now db).tables = db.tables := by
  rw [applyAdlists_eq, upsert_adlist_tables, upsert_adlist_tables, upsert_adlist_tables]

theorem applyAdlists_sat (now : Nat) (db : GravityDB) :
    SatGroup (applyAdlists now (ensure_default_group db)).groups ∧
    SatAdlist now "https://big.oisd.nl/" "OISD Big"
      (applyAdlists now (ensure_default_group db)).adlists
      (applyAdlists now (ensure_default_group db)).adlist_by_group ∧
    SatAdlist now "https://v.firebog.net/hosts/Easyprivacy.txt" "EasyPrivacy (Firebog)"
      (applyAdlists now (ensure_default_group db)).adlists
      (applyAdlists now (ensure_default_group db)).adlist_by_group ∧
    SatAdlist now "https://v.firebog.net/hosts/AdguardDNS.txt" "AdGuard DNS (Firebog)"
      (applyAdlists now (ensure_default_group db)).adlists
      (applyAdlists now (ensure_default_group db)).adlist_by_group := by
  rw [applyAdlists_eq]
  refine ⟨?_, ?_, ?_, ?_⟩
  · exact upsert_adlist_preserves_satgroup _ _ _ _
      (upsert_adlist_preserves_satgroup _ _ _ _
        (upsert_adlist_preserves_satgroup _ _ _ _ (ensure_default_group_sat db)))
  · exact upsert_adlist_preserves_sat _ _ _ _ _ _ (by decide)
      (upsert_adlist_preserves_sat _ _ _ _ _ _ (by decide)
        (upsert_adlist_sat _ _ _ _))
  · exact upsert_adlist_preserves_sat _ _ _ _ _ _ (by decide)
      (upsert_adlist_sat _ _ _ _)
  · exact upsert_adlist_sat _ _ _ _

theorem writes_idempotent (now : Nat) (db : GravityDB) :
    applyAdlists now (ensure_default_group (applyAdlists now (ensure_default_group db))) =
      applyAdlists now (ensure_default_group db) := by
  obtain ⟨hg, h1, h2, h3⟩ := applyAdlists_sat now db
  have hE : ensure_default_group (applyAdlists now (ensure_default_group db)) =
      applyAdlists now (ensure_default_group db) := ensure_default_group_eq_of_sat _ hg
  rw [hE, applyAdlists_eq]
  rw [upsert_adlist_eq_of_sat _ _ _ _ h1]
  rw [upsert_adlist_eq_of_sat _ _ _ _ h2]
  exact upsert_adlist_eq_of_sat _ _ _ _ h3

/-- Claim C2: running the provisioner's database-edit step twice in sequence
(at one clock reading, so the `strftime` stamps agree) leaves the database in
the same final state as running it once; after a successful run every
configured adlist is present with `enabled = 1`, and `adlist_by_group` stays
free of duplicate (adlist_id, group_id) rows. -/
theorem provisioner_idempotent (now : Nat) (db : GravityDB)
    (hnd : db.adlist_by_group.Nodup) :
    edit_db_on_host now (edit_db_on_host now db).2 = edit_db_on_host now db ∧
    ((edit_db_on_host now db).1 = none → ∀ p ∈ ADLISTS,
      ∃ r ∈ (edit_db_on_host now db).2.adlists, r.address = p.1 ∧ r.enabled = 1) ∧
    (edit_db_on_host now db).2.adlist_by_group.Nodup := by
  by_cases hm : missingTables db = []
  · have hedit : edit_db_on_host now db =
        (none, applyAdlists now (ensure_default_group db)) := by
      unfold edit_db_on_host
      rw [if_pos hm]
      rfl
    have htab : (applyAdlists now (ensure_default_group db)).tables = db.tables := by
      rw [applyAdlists_tables, ensure_default_group_tables]
    have hm2 : missingTables (applyAdlists now (ensure_default_group db)) = [] := by
      unfold missingTables at hm ⊢
      rw [htab]
      exact hm
    obtain ⟨hg, h1, h2, h3⟩ := applyAdlists_sat now db
    refine ⟨?_, ?_, ?_⟩
    · rw [hedit]
      show edit_db_on_host now (applyAdlists now (ensure_default_group db)) = _
      unfold edit_db_on_host
      rw [if_pos hm2]
      exact congrArg (Prod.mk none) (writes_idempotent now db)
    · intro _ p hp
      rw [hedit]
      have hp3 : p = ("https://big.oisd.nl/", "OISD Big") ∨
          p = ("https://v.firebog.net/hosts/Easyprivacy.txt", "EasyPrivacy (Firebog)") ∨
          p = ("https://v.firebog.net/hosts/AdguardDNS.txt", "AdGuard DNS (Firebog)") := by
        simpa [ADLISTS] using hp
      rcases hp3 with rfl | rfl | rfl
      · obtain ⟨r, hr, ha⟩ := h1.1
        exact ⟨r, hr, ha, (h1.2 r hr ha).1⟩
      · obtain ⟨r, hr, ha⟩ := h2.1
        exact ⟨r, hr, ha, (h2.2 r hr ha).1⟩
      · obtain ⟨r, hr, ha⟩ := h3.1
        exact ⟨r, hr, ha, (h3.2 r hr ha).1⟩
    · rw [hedit]
      show (applyAdlists now (ensure_default_group db)).adlist_by_group.Nodup
      rw [applyAdlists_eq]
      apply upsert_adlist_nodup
      apply upsert_adlist_nodup
      apply upsert_adlist_nodup
      rw [ensure_default_group_links]
      exact hnd
  · have hedit : edit_db_on_host now db = (some (schemaErrMsg db), db) := by
      unfold edit_db_on_host
      rw [if_neg hm]
    refine ⟨?_, ?_, ?_⟩
    · rw [hedit]
      show edit_db_on_host now db = _
      rw [hedit]
    · rw [hedit]
      intro habs
      simp at habs
    · rw [hedit]
      exact hnd

/-- Witness for C2 at a concrete input: the empty database with the three
required tables, edited at clock value 100. -/
theorem provisioner_idempotent_witness :
    edit_db_on_host 100
        (edit_db_on_host 100 ⟨["adlist", "adlist_by_group", "group"], [], [], []⟩).2 =
      edit_db_on_host 100 ⟨["adlist", "adlist_by_group", "group"], [], [], []⟩ ∧
    ((edit_db_on_host 100 ⟨["adlist", "adlist_by_group", "group"], [], [], []⟩).1 = none →
      ∀ p ∈ ADLISTS,
        ∃ r ∈ (edit_db_on_host 100
            ⟨["adlist", "adlist_by_group", "group"], [], [], []⟩).2.adlists,
          r.address = p.1 ∧ r.enabled = 1) ∧
    (edit_db_on_host 100
      ⟨["adlist", "adlist_by_group", "group"], [], [], []⟩).2.adlist_by_group.Nodup :=
  provisioner_idempotent 100 ⟨["adlist", "adlist_by_group", "group"], [], [], []⟩ (by decide)
